import Mathlib

/-!
Verification of the RSS-to-README pipeline of this repository
(`update_blog.py`, the minimal-dependency variant, with
`update_blog_posts.py` as the near-identical sibling).

Strings are modelled as `List Char`.  Python's `re.sub` over the pattern
`<!-- BLOG-POST-LIST:START -->.*?<!-- BLOG-POST-LIST:END -->` with
`re.DOTALL` is modelled by `spliceAllT`: the replacement string is first
parsed as a replacement template (`\g<0>`-style backreferences, octal and
letter escapes, `\\` collapse; a bad escape or a reference to a group the
pattern does not have raises `re.error`, modelled as `none`), then the
scan repeatedly finds the leftmost occurrence of the start marker and the
earliest end marker after it, replaces the whole span by the expanded
template, and continues after the span.  `spliceAll` is the escape-free
core (replacement inserted literally), which coincides with `spliceAllT`
for backslash-free blocks (`spliceAllT_no_backslash`).
-/

namespace Blog

/-- Characters of a string literal. -/
def chars (s : String) : List Char := s.data

/-- Python `str.strip()` whitespace (the ASCII whitespace characters). -/
def isPySpace (c : Char) : Bool :=
  c = ' ' || c = '\t' || c = '\n' || c = '\r' || c = '\x0b' || c = '\x0c'

/-- Python `str.strip()`: drop whitespace from both ends. -/
def pyStrip (s : List Char) : List Char :=
  ((s.dropWhile isPySpace).reverse.dropWhile isPySpace).reverse

/-- Python `s.replace('\n', ' ')`. -/
def replaceNl (s : List Char) : List Char :=
  s.map (fun c => if c = '\n' then ' ' else c)

/-- Leftmost occurrence of `pat` in `s`: returns the part before the
occurrence and the part after it (`s = before ++ pat ++ after`). -/
def splitFirst (pat : List Char) : List Char → Option (List Char × List Char)
  | [] => if pat.isPrefixOf ([] : List Char) then some ([], []) else none
  | c :: cs =>
    if pat.isPrefixOf (c :: cs) then some ([], (c :: cs).drop pat.length)
    else
      match splitFirst pat cs with
      | some (b, a) => some (c :: b, a)
      | none => none

/-- `pat` occurs in `s` starting at index `i`. -/
def occursAt (pat s : List Char) (i : Nat) : Bool :=
  pat.isPrefixOf (s.drop i)

/-- Python `pat in s` (substring containment). -/
def containsSub (pat s : List Char) : Bool :=
  (splitFirst pat s).isSome

/-- Fuel-driven worker for `removeAll`. -/
def removeGo (pat : List Char) : Nat → List Char → List Char
  | 0, s => s
  | fuel + 1, s =>
    match splitFirst pat s with
    | none => s
    | some (b, a) => b ++ removeGo pat fuel a

/-- Python `s.replace(pat, '')` for a non-empty `pat`: remove every
non-overlapping occurrence, scanning left to right. -/
def removeAll (pat s : List Char) : List Char :=
  removeGo pat s.length s

/-- One HTML tag at the position right after a `<`: Python's regex
`<[^>]+>` needs at least one non-`>` character and then a `>`.
Returns the remainder after the closing `>` when the tag matches. -/
def chopTag : List Char → Option (List Char)
  | [] => none
  | c :: cs =>
    if c = '>' then none
    else
      match (c :: cs).dropWhile (fun x => !(x = '>')) with
      | '>' :: r => some r
      | _ => none

/-- Fuel-driven worker for `stripTags`. -/
def stripTagsGo : Nat → List Char → List Char
  | 0, s => s
  | fuel + 1, s =>
    match s with
    | [] => []
    | c :: rest =>
      if c = '<' then
        match chopTag rest with
        | some r => stripTagsGo fuel r
        | none => c :: stripTagsGo fuel rest
      else c :: stripTagsGo fuel rest

/-- Python `re.sub(r'<[^>]+>', '', s)`: delete every non-overlapping
match of `<[^>]+>`, scanning left to right. -/
def stripTags (s : List Char) : List Char :=
  stripTagsGo s.length s

/-- The literal start marker `<!-- BLOG-POST-LIST:START -->`. -/
def startMarker : List Char := chars "<!-- BLOG-POST-LIST:START -->"

/-- The literal end marker `<!-- BLOG-POST-LIST:END -->`. -/
def endMarker : List Char := chars "<!-- BLOG-POST-LIST:END -->"

/-- Fuel-driven worker for `spliceAll`. -/
def spliceGo (block : List Char) : Nat → List Char → List Char
  | 0, s => s
  | fuel + 1, s =>
    match splitFirst startMarker s with
    | none => s
    | some (pre, rest) =>
      match splitFirst endMarker rest with
      | none => s
      | some (_, post) => pre ++ block ++ spliceGo block fuel post

/-- The escape-free core of `re.sub(pattern, block, content, DOTALL)`:
replace every non-overlapping `START …non-greedy… END` span by `block`
inserted literally — the behavior of the real substitution when `block`
contains no backslash (see `spliceAllT` and `spliceAllT_no_backslash`). -/
def spliceAll (block s : List Char) : List Char :=
  spliceGo block s.length s

/-- Decimal value of a digit character. -/
def digitVal (c : Char) : Nat := c.toNat - '0'.toNat

/-- One piece of a parsed replacement template: a literal character, or a
reference to group 0 (the whole match).  The marker pattern has no other
groups, so every other group reference raises `re.error` at template
parse time (modelled as `none` in `parseTemplateGo`). -/
inductive ReplPiece where
  | lit (c : Char)
  | group0
deriving DecidableEq, Repr

/-- ASCII letter test, as used by the template parser's bad-escape rule. -/
def isAsciiLetterC (c : Char) : Bool :=
  ('a' ≤ c && c ≤ 'z') || ('A' ≤ c && c ≤ 'Z')

/-- Octal digit test. -/
def isOctC (c : Char) : Bool :=
  '0' ≤ c && c ≤ '7'

/-- Fuel-driven worker modelling CPython's `sre_parse.parse_template`
(verified against CPython 3.11): a backslash at the end of the template,
`\g` without `<...>`, `\g<>`/unterminated/non-numeric group names,
references to groups the pattern does not have (`\g<n>` with n > 0,
`\1`…`\99`), unknown ASCII-letter escapes (`\d`), and octal escapes above
`\377` are all `re.error` (`none`); `\g<0>`/`\g<00>` reference the whole
match; `\\` collapses to `\`; `\a \b \f \n \r \t \v` are the known
escapes; `\0` plus up to two octal digits, and three octal digits led by
a nonzero octal digit, are octal character escapes; a backslash before a
non-letter non-digit is kept verbatim. -/
def parseTemplateGo : Nat → List Char → Option (List ReplPiece)
  | 0, _ => none
  | _ + 1, [] => some []
  | fuel + 1, c :: rest =>
    if c = '\\' then
      match rest with
      | [] => none
      | 'g' :: r1 =>
        match r1 with
        | '<' :: r2 =>
          match r2.dropWhile (fun x => !(x = '>')) with
          | '>' :: r3 =>
            if (r2.takeWhile (fun x => !(x = '>'))) ≠ []
                && (r2.takeWhile (fun x => !(x = '>'))).all Char.isDigit then
              if (r2.takeWhile (fun x => !(x = '>'))).all (fun x => x = '0') then
                (parseTemplateGo fuel r3).map (ReplPiece.group0 :: ·)
              else none
            else none
          | _ => none
        | _ => none
      | '\\' :: r1 => (parseTemplateGo fuel r1).map (ReplPiece.lit '\\' :: ·)
      | 'a' :: r1 => (parseTemplateGo fuel r1).map (ReplPiece.lit (Char.ofNat 7) :: ·)
      | 'b' :: r1 => (parseTemplateGo fuel r1).map (ReplPiece.lit (Char.ofNat 8) :: ·)
      | 'f' :: r1 => (parseTemplateGo fuel r1).map (ReplPiece.lit (Char.ofNat 12) :: ·)
      | 'n' :: r1 => (parseTemplateGo fuel r1).map (ReplPiece.lit (Char.ofNat 10) :: ·)
      | 'r' :: r1 => (parseTemplateGo fuel r1).map (ReplPiece.lit (Char.ofNat 13) :: ·)
      | 't' :: r1 => (parseTemplateGo fuel r1).map (ReplPiece.lit (Char.ofNat 9) :: ·)
      | 'v' :: r1 => (parseTemplateGo fuel r1).map (ReplPiece.lit (Char.ofNat 11) :: ·)
      | d :: r1 =>
        if d = '0' then
          match r1 with
          | d2 :: d3 :: r2 =>
            if isOctC d2 && isOctC d3 then
              (parseTemplateGo fuel r2).map
                (ReplPiece.lit (Char.ofNat (digitVal d2 * 8 + digitVal d3)) :: ·)
            else if isOctC d2 then
              (parseTemplateGo fuel (d3 :: r2)).map
                (ReplPiece.lit (Char.ofNat (digitVal d2)) :: ·)
            else (parseTemplateGo fuel r1).map (ReplPiece.lit (Char.ofNat 0) :: ·)
          | [d2] =>
            if isOctC d2 then
              (parseTemplateGo fuel []).map
                (ReplPiece.lit (Char.ofNat (digitVal d2)) :: ·)
            else (parseTemplateGo fuel r1).map (ReplPiece.lit (Char.ofNat 0) :: ·)
          | [] => (parseTemplateGo fuel []).map (ReplPiece.lit (Char.ofNat 0) :: ·)
        else if d.isDigit then
          match r1 with
          | d2 :: d3 :: r2 =>
            if d2.isDigit then
              if isOctC d && isOctC d2 && isOctC d3 then
                if digitVal d * 64 + digitVal d2 * 8 + digitVal d3 ≤ 255 then
                  (parseTemplateGo fuel r2).map
                    (ReplPiece.lit
                      (Char.ofNat (digitVal d * 64 + digitVal d2 * 8 + digitVal d3)) :: ·)
                else none
              else none
            else none
          | _ => none
        else if isAsciiLetterC d then none
        else (parseTemplateGo fuel r1).map
          (fun ps => ReplPiece.lit '\\' :: ReplPiece.lit d :: ps)
    else (parseTemplateGo fuel rest).map (ReplPiece.lit c :: ·)

/-- Parse a replacement string as an `re` template (`none` = `re.error`,
which `re.sub` raises before scanning, match or no match). -/
def parseTemplate (repl : List Char) : Option (List ReplPiece) :=
  parseTemplateGo (repl.length + 1) repl

/-- Expand a parsed template at one match, `group0` being the matched
span. -/
def expandPieces (ps : List ReplPiece) (matched : List Char) : List Char :=
  ps.foldr
    (fun p acc =>
      match p with
      | ReplPiece.lit c => c :: acc
      | ReplPiece.group0 => matched ++ acc)
    []

/-- Fuel-driven scan of `re.sub` with a parsed template: each matched
span `START ++ gap ++ END` is replaced by the template expanded at that
span. -/
def spliceTGo (ps : List ReplPiece) : Nat → List Char → List Char
  | 0, s => s
  | fuel + 1, s =>
    match splitFirst startMarker s with
    | none => s
    | some (pre, rest) =>
      match splitFirst endMarker rest with
      | none => s
      | some (gap, post) =>
        pre ++ expandPieces ps (startMarker ++ gap ++ endMarker)
          ++ spliceTGo ps fuel post

/-- `re.sub(pattern, block, content, flags=re.DOTALL)` for the marker
pattern, template processing included: `none` when the template is
invalid (`re.error` raised), otherwise the text with every
non-overlapping span replaced by the per-match template expansion. -/
def spliceAllT (block s : List Char) : Option (List Char) :=
  (parseTemplate block).map fun ps => spliceTGo ps s.length s

/-- Lines 128-135 of `update_blog.py`: substitute the marker span(s) and
report whether the document changed.  A raised `re.error` is caught by
the function's `except Exception` handler (lines 147-149), which returns
`False` without writing, so the document is unchanged; otherwise
`False` exactly when the replacement left the text identical. -/
def splice (content block : List Char) : List Char × Bool :=
  match spliceAllT block content with
  | none => (content, false)
  | some updated =>
    if updated = content then (content, false) else (updated, true)

/-! ### Date normalization (`update_blog.py` lines 44-72)

`datetime.strptime` is embedded for the three format strings the code
tries, following the regexes CPython's `_strptime` builds for them:
`%a`/`%b` match the abbreviated names case-insensitively, `%d` matches
`3[01]|[12]\d|0[1-9]|[1-9]`, `%Y` exactly four digits, `%H`/`%M`/`%S`
their one- or two-digit ranges, a whitespace run in the format matches
one or more whitespace characters, the whole input must be consumed, and
the parsed fields must form a valid calendar date-time. -/

/-- Case-insensitive literal match: consume `pat` (given lowercase). -/
def matchCI (pat s : List Char) : Option (List Char) :=
  if (s.take pat.length).map Char.toLower = pat then some (s.drop pat.length)
  else none

/-- Abbreviated weekday names for `%a`, lowercase. -/
def weekdayAbbrs : List (List Char) :=
  [chars "mon", chars "tue", chars "wed", chars "thu", chars "fri",
   chars "sat", chars "sun"]

/-- Abbreviated month names for `%b`, lowercase, in month order. -/
def monthAbbrs : List (List Char) :=
  [chars "jan", chars "feb", chars "mar", chars "apr", chars "may",
   chars "jun", chars "jul", chars "aug", chars "sep", chars "oct",
   chars "nov", chars "dec"]

/-- `%a`: consume one abbreviated weekday name, case-insensitively. -/
def pWeekday (s : List Char) : Option (List Char) :=
  weekdayAbbrs.foldr (fun w acc => (matchCI w s).orElse (fun _ => acc)) none

/-- `%b`: consume one abbreviated month name, returning its number. -/
def pMonth (s : List Char) : Option (Nat × List Char) :=
  (List.range 12).foldr
    (fun i acc =>
      match matchCI (monthAbbrs.getD i []) s with
      | some r => some (i + 1, r)
      | none => acc)
    none

/-- Consume one exact character. -/
def pLit (c : Char) : List Char → Option (List Char)
  | [] => none
  | x :: r => if x = c then some r else none

/-- `\s+` in the compiled format regex: one or more whitespace characters. -/
def pSpaces : List Char → Option (List Char)
  | [] => none
  | x :: r => if isPySpace x then some ((x :: r).dropWhile isPySpace) else none

/-- A numeric field that is two digits when the two-digit value is in
`[lo2, hi2]`, else a single digit in `[lo1, hi1]` (the shape of the
`%d`/`%H`/`%M`/`%S` regexes). -/
def pNum2 (lo2 hi2 lo1 hi1 : Nat) : List Char → Option (Nat × List Char)
  | c1 :: c2 :: r =>
    if c1.isDigit && c2.isDigit &&
        decide (lo2 ≤ digitVal c1 * 10 + digitVal c2) &&
        decide (digitVal c1 * 10 + digitVal c2 ≤ hi2) then
      some (digitVal c1 * 10 + digitVal c2, r)
    else if c1.isDigit && decide (lo1 ≤ digitVal c1) && decide (digitVal c1 ≤ hi1) then
      some (digitVal c1, c2 :: r)
    else none
  | [c1] =>
    if c1.isDigit && decide (lo1 ≤ digitVal c1) && decide (digitVal c1 ≤ hi1) then
      some (digitVal c1, [])
    else none
  | [] => none

/-- `%d`: `3[01]|[12]\d|0[1-9]|[1-9]`. -/
def pDay : List Char → Option (Nat × List Char) := pNum2 1 31 1 9

/-- `%H`: `2[0-3]|[0-1]\d|\d`. -/
def pHour : List Char → Option (Nat × List Char) := pNum2 0 23 0 9

/-- `%M`: `[0-5]\d|\d`. -/
def pMinute : List Char → Option (Nat × List Char) := pNum2 0 59 0 9

/-- `%S`: `6[0-1]|[0-5]\d|\d`. -/
def pSecond : List Char → Option (Nat × List Char) := pNum2 0 61 0 9

/-- `%Y`: exactly four digits. -/
def pYear : List Char → Option (Nat × List Char)
  | c1 :: c2 :: c3 :: c4 :: r =>
    if c1.isDigit && c2.isDigit && c3.isDigit && c4.isDigit then
      some (digitVal c1 * 1000 + digitVal c2 * 100 + digitVal c3 * 10 + digitVal c4, r)
    else none
  | _ => none

/-- Gregorian leap year. -/
def isLeap (y : Nat) : Bool :=
  y % 4 = 0 && (!(y % 100 = 0) || y % 400 = 0)

/-- Days in a month (1-12). -/
def daysInMonth (y m : Nat) : Nat :=
  if m = 2 then (if isLeap y then 29 else 28)
  else if m = 4 || m = 6 || m = 9 || m = 11 then 30
  else 31

/-- `datetime(y, mo, d, h, mi, sec)` succeeds: field ranges valid. -/
def validDateTime (y mo d h mi sec : Nat) : Bool :=
  decide (1 ≤ y) && decide (y ≤ 9999) &&
  decide (1 ≤ d) && decide (d ≤ daysInMonth y mo) &&
  decide (h ≤ 23) && decide (mi ≤ 59) && decide (sec ≤ 59)

/-- `%H:%M:%S`. -/
def pTime (s : List Char) : Option (Nat × Nat × Nat × List Char) :=
  match pHour s with
  | none => none
  | some (h, s1) =>
    match pLit ':' s1 with
    | none => none
    | some s2 =>
      match pMinute s2 with
      | none => none
      | some (mi, s3) =>
        match pLit ':' s3 with
        | none => none
        | some s4 =>
          match pSecond s4 with
          | none => none
          | some (sec, s5) => some (h, mi, sec, s5)

/-- `%d %b %Y` followed by `k`: day, month, year. -/
def pDate (s : List Char) : Option (Nat × Nat × Nat × List Char) :=
  match pDay s with
  | none => none
  | some (d, s1) =>
    match pSpaces s1 with
    | none => none
    | some s2 =>
      match pMonth s2 with
      | none => none
      | some (mo, s3) =>
        match pSpaces s3 with
        | none => none
        | some s4 =>
          match pYear s4 with
          | none => none
          | some (y, s5) => some (d, mo, y, s5)

/-- `strptime(s, '%a, %d %b %Y %H:%M:%S')`: year, month, day on success. -/
def parseFmt1 (s : List Char) : Option (Nat × Nat × Nat) :=
  match pWeekday s with
  | none => none
  | some s1 =>
    match pLit ',' s1 with
    | none => none
    | some s2 =>
      match pSpaces s2 with
      | none => none
      | some s3 =>
        match pDate s3 with
        | none => none
        | some (d, mo, y, s4) =>
          match pSpaces s4 with
          | none => none
          | some s5 =>
            match pTime s5 with
            | some (h, mi, sec, []) =>
              if validDateTime y mo d h mi sec then some (y, mo, d) else none
            | _ => none

/-- `strptime(s, '%d %b %Y %H:%M:%S')`. -/
def parseFmt2 (s : List Char) : Option (Nat × Nat × Nat) :=
  match pDate s with
  | none => none
  | some (d, mo, y, s1) =>
    match pSpaces s1 with
    | none => none
    | some s2 =>
      match pTime s2 with
      | some (h, mi, sec, []) =>
        if validDateTime y mo d h mi sec then some (y, mo, d) else none
      | _ => none

/-- `strptime(s, '%a, %d %b %Y')`. -/
def parseFmt3 (s : List Char) : Option (Nat × Nat × Nat) :=
  match pWeekday s with
  | none => none
  | some s1 =>
    match pLit ',' s1 with
    | none => none
    | some s2 =>
      match pSpaces s2 with
      | none => none
      | some s3 =>
        match pDate s3 with
        | some (d, mo, y, []) =>
          if validDateTime y mo d 0 0 0 then some (y, mo, d) else none
        | _ => none

/-- The ordered format list of line 59; first success wins. -/
def tryFormats (s : List Char) : Option (Nat × Nat × Nat) :=
  (parseFmt1 s).orElse fun _ => (parseFmt2 s).orElse fun _ => parseFmt3 s

/-- Full month names for `strftime('%B …')`. -/
def monthFull : List (List Char) :=
  [chars "January", chars "February", chars "March", chars "April",
   chars "May", chars "June", chars "July", chars "August",
   chars "September", chars "October", chars "November", chars "December"]

/-- Zero-padded two-digit rendering (`%d`). -/
def twoDigits (n : Nat) : List Char := [Nat.digitChar (n / 10), Nat.digitChar (n % 10)]

/-- `strftime("%B %d, %Y")`. -/
def fmtDate (y mo d : Nat) : List Char :=
  monthFull.getD (mo - 1) [] ++ chars " " ++ twoDigits d ++ chars ", " ++
    Nat.toDigits 10 y

/-- Lines 51-56 of `update_blog.py`: the pre-parse stripping step applied
to the already-stripped date string. -/
def stripPre (ds : List Char) : List Char :=
  if ds.contains '+' then pyStrip (ds.takeWhile (fun c => !(c = '+')))
  else if containsSub (chars " GMT") ds then pyStrip (removeAll (chars " GMT") ds)
  else if containsSub (chars " UTC") ds then pyStrip (removeAll (chars " UTC") ds)
  else ds

/-- The placeholder published date of line 45. -/
def unknownDate : List Char := chars "Unknown date"

/-- Lines 49-69: strip the raw text, apply the stripping rules, try the
formats in order, render on success, fall back to the stripped raw text. -/
def normalizeDate (txt : List Char) : List Char :=
  let ds := pyStrip txt
  match tryFormats (stripPre ds) with
  | some (y, mo, d) => fmtDate y mo d
  | none => ds

/-! ### Feed items and posts -/

/-- One `<item>` of the feed, as seen through `xml.etree`: each child
element is either absent (`none`), or present with text `none` (no text
node) or `some` characters. -/
structure Item where
  title : Option (Option (List Char))
  link : Option (Option (List Char))
  pubDate : Option (Option (List Char))
  description : Option (Option (List Char))
deriving DecidableEq, Repr

/-- A normalized post record. -/
structure Post where
  title : List Char
  link : List Char
  summary : List Char
  published : List Char
deriving DecidableEq, Repr

/-- The placeholder title of line 41. -/
def noTitle : List Char := chars "No Title"

/-- Line 41: `title_elem.text.strip() if title_elem.text else 'No Title'`
(text `None` and the empty string are both falsy). -/
def titleField : Option (List Char) → List Char
  | some t => if t = [] then noTitle else pyStrip t
  | none => noTitle

/-- Line 42: `link_elem.text.strip() if link_elem.text else ''`. -/
def linkField : Option (List Char) → List Char
  | some t => if t = [] then [] else pyStrip t
  | none => []

/-- Lines 74-82: the summary cleanup and truncation chain. -/
def cleanSummary (t : List Char) : List Char :=
  let s1 := pyStrip t
  let s2 := stripTags s1
  let s3 := pyStrip (replaceNl s2)
  if 150 < s3.length then s3.take 150 ++ chars "..." else s3

/-- Lines 75-82 with the element guard: absent element or falsy text
leaves the summary empty. -/
def summaryField : Option (Option (List Char)) → List Char
  | some (some t) => if t = [] then [] else cleanSummary t
  | _ => []

/-- Lines 45-72 with the element guard: absent element or falsy text
yields the placeholder. -/
def publishedField : Option (Option (List Char)) → List Char
  | some (some t) => if t = [] then unknownDate else normalizeDate t
  | _ => unknownDate

/-- The post built from an admitted item (lines 41-89). -/
def postOfItem (it : Item) : Post :=
  { title := titleField (it.title.getD none)
    link := linkField (it.link.getD none)
    summary := summaryField it.description
    published := publishedField it.pubDate }

/-- Line 39: `title_elem is not None and link_elem is not None`. -/
def eligibleItem (it : Item) : Bool :=
  it.title.isSome && it.link.isSome

/-- Lines 32-92 of `update_blog.py`: loop over `items[:max_posts]`,
admitting only items whose title and link elements are both present. -/
def fetch_latest_blog_posts (items : List Item) (maxPosts : Nat) : List Post :=
  (items.take maxPosts).foldl
    (fun posts it => if eligibleItem it then posts ++ [postOfItem it] else posts)
    []

/-- Outcome of the fetch/parse stage before the item loop: the HTTP
request raised (`requests.RequestException`), the body failed XML parsing
(`ET.ParseError`), or a well-formed item list was obtained. -/
inductive FetchOutcome where
  | requestError
  | xmlParseError
  | ok (items : List Item)
deriving DecidableEq, Repr

/-- Errors the body of `fetch_latest_blog_posts` can raise. -/
inductive FetchError where
  | request
  | parse
deriving DecidableEq, Repr

/-- The body of `fetch_latest_blog_posts` before its `except` clauses:
`raise_for_status` / `ET.fromstring` raise, the item loop returns. -/
def fetchBody (r : FetchOutcome) (maxPosts : Nat) : Except FetchError (List Post) :=
  match r with
  | .requestError => .error .request
  | .xmlParseError => .error .parse
  | .ok items =>
    if items = [] then .ok [] else .ok (fetch_latest_blog_posts items maxPosts)

/-- Lines 17-102: the whole function with its `except` handlers, which
catch every raised error and degrade to the empty list. -/
def fetchCaught (r : FetchOutcome) (maxPosts : Nat) : List Post :=
  match fetchBody r maxPosts with
  | .error _ => []
  | .ok posts => posts

/-! ### Rendering (`update_blog.py` lines 115-126) -/

/-- The lines rendered for one post. -/
def renderPost (p : Post) : List Char :=
  chars "- [" ++ p.title ++ chars "](" ++ p.link ++ chars ") - *" ++
    p.published ++ chars "*\n" ++
  (if pyStrip p.summary = [] then [] else chars "  > " ++ pyStrip p.summary ++ chars "\n") ++
  chars "\n"

/-- Lines 115-126: the rendered block, markers included. -/
def renderPosts (posts : List Post) : List Char :=
  if posts = [] then
    startMarker ++ chars "\n- No blog posts available at the moment.\n" ++ endMarker
  else
    startMarker ++ chars "\n" ++
      posts.foldl (fun acc p => acc ++ renderPost p) [] ++ endMarker

/-- Lines 109-142 of `update_blog.py`, with the file collaborator
abstracted away: render the posts and splice them into the document. -/
def update_readme_with_blog_posts (posts : List Post) (content : List Char) :
    List Char × Bool :=
  splice content (renderPosts posts)

/-! ### Definitions taken from the claims' own wording, for comparison -/

/-- Modelled from the claim's wording for C1 (`N_eligible` "excludes items
missing both title and link"): an item counts as eligible when at least one
of the two elements is present. -/
def claimEligible (it : Item) : Bool :=
  it.title.isSome || it.link.isSome

/-- The claim's "length after tag-stripping and newline/whitespace
cleanup": the summary after the cleanup steps of lines 77-80, before
truncation. -/
def cleanupSummary (t : List Char) : List Char :=
  pyStrip (replaceNl (stripTags (pyStrip t)))

/-- Modelled from the spec's wording for C8: start marker, one literal
line `No blog posts available at the moment.`, end marker. -/
def specEmptyBlock : List Char :=
  startMarker ++ chars "\nNo blog posts available at the moment.\n" ++ endMarker

/-! ### Lemmas about substring search -/

theorem isPrefixOf_exists : ∀ (p s : List Char),
    p.isPrefixOf s = true ↔ ∃ t, s = p ++ t
  | [], s => by
    constructor
    · intro _; exact ⟨s, rfl⟩
    · intro _; cases s <;> rfl
  | a :: as, [] => by
    constructor
    · intro h; simp [List.isPrefixOf] at h
    · rintro ⟨t, ht⟩; simp at ht
  | a :: as, b :: bs => by
    constructor
    · intro h
      simp only [List.isPrefixOf, Bool.and_eq_true, beq_iff_eq] at h
      obtain ⟨rfl, h2⟩ := h
      obtain ⟨t, rfl⟩ := (isPrefixOf_exists as bs).mp h2
      exact ⟨t, rfl⟩
    · rintro ⟨t, ht⟩
      injection ht with h1 h2
      subst h1
      simp only [List.isPrefixOf, Bool.and_eq_true, beq_iff_eq]
      exact ⟨trivial, (isPrefixOf_exists as bs).mpr ⟨t, h2⟩⟩

theorem isPrefixOf_append_le {p u : List Char} (y : List Char)
    (h : p.length ≤ u.length) : p.isPrefixOf (u ++ y) = p.isPrefixOf u := by
  induction p generalizing u with
  | nil => cases u <;> simp [List.isPrefixOf]
  | cons a as ih =>
    cases u with
    | nil => simp at h
    | cons b bs =>
      simp only [List.cons_append, List.isPrefixOf, List.append_eq]
      rw [ih (by simpa using Nat.le_of_succ_le_succ h)]

theorem occursAt_lt {pat s : List Char} {i : Nat} (hp : pat ≠ [])
    (h : occursAt pat s i = true) : i < s.length := by
  obtain ⟨t, ht⟩ := (isPrefixOf_exists pat (s.drop i)).mp h
  have hlen : s.length - i = pat.length + t.length := by
    have := congrArg List.length ht
    simpa using this
  have hpat : 0 < pat.length := List.length_pos.mpr hp
  by_contra hcon
  push_neg at hcon
  omega

theorem occursAt_append_left {pat x : List Char} (y : List Char) {i : Nat}
    (h : i + pat.length ≤ x.length) :
    occursAt pat (x ++ y) i = occursAt pat x i := by
  unfold occursAt
  have hi : i ≤ x.length := by omega
  rw [List.drop_append_eq_append_drop, Nat.sub_eq_zero_of_le hi, List.drop_zero]
  exact isPrefixOf_append_le y (by simpa [List.length_drop] using Nat.le_sub_of_add_le (by omega))

theorem occursAt_append_right (pat x y : List Char) (i : Nat) :
    occursAt pat (x ++ y) (x.length + i) = occursAt pat y i := by
  unfold occursAt
  rw [List.drop_append_eq_append_drop,
    List.drop_eq_nil_of_le (by omega), Nat.add_sub_cancel_left, List.nil_append]

theorem occursAt_self (pat x y : List Char) :
    occursAt pat (x ++ (pat ++ y)) x.length = true := by
  unfold occursAt
  rw [List.drop_left]
  exact (isPrefixOf_exists pat (pat ++ y)).mpr ⟨y, rfl⟩

theorem splitFirst_some : ∀ {pat s b a : List Char},
    splitFirst pat s = some (b, a) →
    s = b ++ pat ++ a ∧ ∀ i < b.length, occursAt pat s i = false := by
  intro pat s
  induction s with
  | nil =>
    intro b a h
    simp only [splitFirst] at h
    by_cases hp : pat.isPrefixOf ([] : List Char) = true
    · obtain ⟨t, ht⟩ := (isPrefixOf_exists pat []).mp hp
      have hpat : pat = [] := by
        cases pat with
        | nil => rfl
        | cons c cs => simp at ht
      rw [hp] at h
      simp at h
      obtain ⟨rfl, rfl⟩ := h
      exact ⟨by simp [hpat], by intro i hi; simp at hi⟩
    · rw [Bool.not_eq_true] at hp
      rw [hp] at h
      simp at h
  | cons c cs ih =>
    intro b a h
    simp only [splitFirst] at h
    by_cases hp : pat.isPrefixOf (c :: cs) = true
    · rw [hp] at h
      simp only [if_true] at h
      injection h with h
      injection h with hb ha
      subst hb
      obtain ⟨t, ht⟩ := (isPrefixOf_exists pat (c :: cs)).mp hp
      constructor
      · rw [List.nil_append, ← ha, ht, List.drop_left]
      · intro i hi; simp at hi
    · rw [Bool.not_eq_true] at hp
      rw [hp] at h
      simp only [Bool.false_eq_true, if_false] at h
      cases hrec : splitFirst pat cs with
      | none => rw [hrec] at h; simp at h
      | some pr =>
        obtain ⟨b', a'⟩ := pr
        rw [hrec] at h
        simp only [Option.some_inj] at h
        injection h with hb ha
        obtain ⟨heq, hmin⟩ := ih hrec
        subst hb; subst ha
        constructor
        · simp [heq]
        · intro i hi
          cases i with
          | zero => exact hp
          | succ j =>
            have : occursAt pat (c :: cs) (j + 1) = occursAt pat cs j := rfl
            rw [this]
            exact hmin j (by simpa using Nat.lt_of_succ_lt_succ hi)

theorem splitFirst_build {pat : List Char} (hp : pat ≠ []) :
    ∀ {s : List Char} {k : Nat},
    (∀ i < k, occursAt pat s i = false) → occursAt pat s k = true →
    splitFirst pat s = some (s.take k, s.drop (k + pat.length)) := by
  intro s
  induction s with
  | nil =>
    intro k _ hocc
    exfalso
    have := occursAt_lt hp hocc
    simp at this
  | cons c cs ih =>
    intro k hmin hocc
    cases k with
    | zero =>
      have h0 : pat.isPrefixOf (c :: cs) = true := hocc
      simp only [splitFirst, h0, if_true, List.take_zero, Nat.zero_add]
    | succ j =>
      have h0 : pat.isPrefixOf (c :: cs) = false := hmin 0 (Nat.succ_pos j)
      have hshift : ∀ i < j, occursAt pat cs i = false := by
        intro i hi
        exact hmin (i + 1) (Nat.succ_lt_succ hi)
      have hocc' : occursAt pat cs j = true := hocc
      simp only [splitFirst, h0, Bool.false_eq_true, if_false, ih hshift hocc']
      rw [show j + 1 + pat.length = (j + pat.length) + 1 from by omega,
        List.drop_succ_cons, List.take_succ_cons]

theorem splitFirst_length {pat s b a : List Char}
    (h : splitFirst pat s = some (b, a)) :
    s.length = b.length + pat.length + a.length := by
  have heq := (splitFirst_some h).1
  rw [heq]
  simp [List.length_append]
  omega

theorem splitFirst_none_of {pat : List Char} :
    ∀ {s : List Char}, (∀ i, occursAt pat s i = false) → splitFirst pat s = none := by
  intro s
  induction s with
  | nil =>
    intro h
    have h0 : pat.isPrefixOf ([] : List Char) = false := h 0
    simp [splitFirst, h0]
  | cons c cs ih =>
    intro h
    have h0 : pat.isPrefixOf (c :: cs) = false := h 0
    have hrec : splitFirst pat cs = none := ih fun i => h (i + 1)
    simp [splitFirst, h0, hrec]

/-! ### Lemmas about the splicing step -/

theorem spliceGo_congr (block : List Char) :
    ∀ (f g : Nat) (s : List Char), s.length ≤ f → s.length ≤ g →
      spliceGo block f s = spliceGo block g s := by
  intro f
  induction f with
  | zero =>
    intro g s hf _
    have hnil : s = [] := List.length_eq_zero.mp (Nat.le_zero.mp hf)
    subst hnil
    cases g with
    | zero => rfl
    | succ g' =>
      have hnone : splitFirst startMarker ([] : List Char) = none := by decide
      simp [spliceGo, hnone]
  | succ f' ih =>
    intro g s hf hg
    cases h1 : splitFirst startMarker s with
    | none =>
      cases g with
      | zero =>
        have hnil : s = [] := List.length_eq_zero.mp (Nat.le_zero.mp hg)
        subst hnil
        simp [spliceGo, h1]
      | succ g' => simp [spliceGo, h1]
    | some pr1 =>
      obtain ⟨pre, rest⟩ := pr1
      have hslen := splitFirst_length h1
      have hsm : startMarker.length = 29 := by decide
      cases h2 : splitFirst endMarker rest with
      | none =>
        cases g with
        | zero => exfalso; omega
        | succ g' => simp [spliceGo, h1, h2]
      | some pr2 =>
        obtain ⟨gap, post⟩ := pr2
        have hrlen := splitFirst_length h2
        have hem : endMarker.length = 27 := by decide
        cases g with
        | zero => exfalso; omega
        | succ g' =>
          simp only [spliceGo, h1, h2]
          rw [ih g' post (by omega) (by omega)]

theorem spliceAll_none {block s : List Char}
    (h : splitFirst startMarker s = none) : spliceAll block s = s := by
  unfold spliceAll
  cases hl : s.length with
  | zero => rfl
  | succ n => simp [spliceGo, h]

theorem spliceAll_noEnd {block s pre rest : List Char}
    (h1 : splitFirst startMarker s = some (pre, rest))
    (h2 : splitFirst endMarker rest = none) : spliceAll block s = s := by
  unfold spliceAll
  cases hl : s.length with
  | zero => rfl
  | succ n => simp [spliceGo, h1, h2]

theorem spliceAll_step {block s pre rest gap post : List Char}
    (h1 : splitFirst startMarker s = some (pre, rest))
    (h2 : splitFirst endMarker rest = some (gap, post)) :
    spliceAll block s = pre ++ block ++ spliceAll block post := by
  have hslen := splitFirst_length h1
  have hrlen := splitFirst_length h2
  have hsm : startMarker.length = 29 := by decide
  have hem : endMarker.length = 27 := by decide
  unfold spliceAll
  cases hl : s.length with
  | zero => exfalso; omega
  | succ n =>
    simp only [spliceGo, h1, h2]
    rw [spliceGo_congr block n post.length post (by omega) (Nat.le_refl _)]

/-- The key step used for idempotence and for the single-span frame
theorem: if the document is `pre ++ startMarker ++ z` and no start-marker
occurrence begins before `pre.length`, the leftmost span starts exactly
at `pre.length`. -/
theorem splitFirst_start_of_min {pre z : List Char}
    (hmin : ∀ i < pre.length,
      occursAt startMarker (pre ++ (startMarker ++ z)) i = false) :
    splitFirst startMarker (pre ++ (startMarker ++ z)) = some (pre, z) := by
  have hocc : occursAt startMarker (pre ++ (startMarker ++ z)) pre.length = true :=
    occursAt_self ..
  have hb := splitFirst_build (by decide : startMarker ≠ []) hmin hocc
  rw [hb]
  have e3 : (pre ++ (startMarker ++ z)).take pre.length = pre := List.take_left ..
  have e4 : (pre ++ (startMarker ++ z)).drop (pre.length + startMarker.length) = z := by
    rw [show pre ++ (startMarker ++ z) = (pre ++ startMarker) ++ z from by
        simp [List.append_assoc],
      show pre.length + startMarker.length = (pre ++ startMarker).length from by
        simp [List.length_append],
      List.drop_left]
  rw [e3, e4]

/-- Same for the end marker. -/
theorem splitFirst_end_of_min {gap z : List Char}
    (hmin : ∀ i < gap.length,
      occursAt endMarker (gap ++ (endMarker ++ z)) i = false) :
    splitFirst endMarker (gap ++ (endMarker ++ z)) = some (gap, z) := by
  have hocc : occursAt endMarker (gap ++ (endMarker ++ z)) gap.length = true :=
    occursAt_self ..
  have hb := splitFirst_build (by decide : endMarker ≠ []) hmin hocc
  rw [hb]
  have e3 : (gap ++ (endMarker ++ z)).take gap.length = gap := List.take_left ..
  have e4 : (gap ++ (endMarker ++ z)).drop (gap.length + endMarker.length) = z := by
    rw [show gap ++ (endMarker ++ z) = (gap ++ endMarker) ++ z from by
        simp [List.append_assoc],
      show gap.length + endMarker.length = (gap ++ endMarker).length from by
        simp [List.length_append],
      List.drop_left]
  rw [e3, e4]

/-- Idempotence of the substitution for well-formed blocks: if the text
strictly between the block's leading start marker and trailing end marker
contains no end-marker occurrence (also none straddling into the trailing
marker), a second substitution reproduces its input. -/
theorem spliceAll_idem (mid : List Char)
    (hmid : ∀ i < mid.length, occursAt endMarker (mid ++ endMarker) i = false) :
    ∀ (n : Nat) (s : List Char), s.length ≤ n →
      spliceAll (startMarker ++ (mid ++ endMarker))
          (spliceAll (startMarker ++ (mid ++ endMarker)) s)
        = spliceAll (startMarker ++ (mid ++ endMarker)) s := by
  intro n
  induction n using Nat.strong_induction_on with
  | _ n ih =>
    intro s hs
    cases h1 : splitFirst startMarker s with
    | none => rw [spliceAll_none h1, spliceAll_none h1]
    | some pr1 =>
      obtain ⟨pre, rest⟩ := pr1
      cases h2 : splitFirst endMarker rest with
      | none => rw [spliceAll_noEnd h1 h2, spliceAll_noEnd h1 h2]
      | some pr2 =>
        obtain ⟨gap, post⟩ := pr2
        obtain ⟨hseq, hsmin⟩ := splitFirst_some h1
        have hslen := splitFirst_length h1
        have hrlen := splitFirst_length h2
        have hsm : startMarker.length = 29 := by decide
        have hem : endMarker.length = 27 := by decide
        rw [spliceAll_step h1 h2]
        set block := startMarker ++ (mid ++ endMarker) with hblock
        set t := spliceAll block post with ht
        have hrw : pre ++ block ++ t = pre ++ (startMarker ++ (mid ++ (endMarker ++ t))) := by
          simp [hblock, List.append_assoc]
        have hS : splitFirst startMarker (pre ++ block ++ t)
            = some (pre, mid ++ (endMarker ++ t)) := by
          rw [hrw]
          refine splitFirst_start_of_min ?_
          intro i hi
          have hb : i + startMarker.length ≤ (pre ++ startMarker).length := by
            simp [List.length_append]; omega
          have e1 : pre ++ (startMarker ++ (mid ++ (endMarker ++ t)))
              = (pre ++ startMarker) ++ (mid ++ (endMarker ++ t)) := by
            simp [List.append_assoc]
          rw [e1, occursAt_append_left _ hb]
          have e2 : s = (pre ++ startMarker) ++ rest := hseq
          have hfalse := hsmin i hi
          rw [e2, occursAt_append_left _ hb] at hfalse
          exact hfalse
        have hE : splitFirst endMarker (mid ++ (endMarker ++ t)) = some (mid, t) := by
          refine splitFirst_end_of_min ?_
          intro i hi
          have hb : i + endMarker.length ≤ (mid ++ endMarker).length := by
            simp [List.length_append]; omega
          have e1 : mid ++ (endMarker ++ t) = (mid ++ endMarker) ++ t := by
            simp [List.append_assoc]
          rw [e1, occursAt_append_left _ hb]
          exact hmid i hi
        rw [spliceAll_step hS hE]
        have hidem : spliceAll block t = t := by
          rw [ht]
          exact ih post.length (by omega) post (Nat.le_refl _)
        rw [hidem]

/-! ### The template semantics degenerates to literal insertion for
backslash-free replacement strings -/

theorem parseTemplateGo_all_lit :
    ∀ (f : Nat) (s : List Char), s.length < f → '\\' ∉ s →
      parseTemplateGo f s = some (s.map ReplPiece.lit) := by
  intro f
  induction f with
  | zero => intro s h _; omega
  | succ f' ih =>
    intro s hlen hnb
    cases s with
    | nil => rfl
    | cons c rest =>
      have hc : ¬ (c = '\\') := by
        intro h
        exact hnb (h ▸ List.mem_cons_self c rest)
      have hrest : '\\' ∉ rest := fun hm => hnb (List.mem_cons_of_mem c hm)
      have hlen' : rest.length < f' := by
        simp only [List.length_cons] at hlen
        omega
      simp only [parseTemplateGo, if_neg hc, ih rest hlen' hrest, Option.map_some',
        List.map_cons]

theorem parseTemplate_no_backslash {block : List Char}
    (hb : block.contains '\\' = false) :
    parseTemplate block = some (block.map ReplPiece.lit) := by
  have hnb : '\\' ∉ block := by simpa using hb
  exact parseTemplateGo_all_lit (block.length + 1) block (by omega) hnb

theorem expandPieces_lit : ∀ (block m : List Char),
    expandPieces (block.map ReplPiece.lit) m = block := by
  intro block m
  induction block with
  | nil => rfl
  | cons c rest ih =>
    show c :: expandPieces (rest.map ReplPiece.lit) m = c :: rest
    rw [ih]

theorem spliceTGo_eq_spliceGo {ps : List ReplPiece} {block : List Char}
    (hexp : ∀ m, expandPieces ps m = block) :
    ∀ (f : Nat) (s : List Char), spliceTGo ps f s = spliceGo block f s := by
  intro f
  induction f with
  | zero => intro s; rfl
  | succ f' ih =>
    intro s
    cases h1 : splitFirst startMarker s with
    | none => simp only [spliceTGo, spliceGo, h1]
    | some pr1 =>
      obtain ⟨pre, rest⟩ := pr1
      cases h2 : splitFirst endMarker rest with
      | none => simp only [spliceTGo, spliceGo, h1, h2]
      | some pr2 =>
        obtain ⟨gap, post⟩ := pr2
        simp only [spliceTGo, spliceGo, h1, h2]
        rw [hexp, ih]

theorem spliceAllT_no_backslash {block : List Char}
    (hb : block.contains '\\' = false) (s : List Char) :
    spliceAllT block s = some (spliceAll block s) := by
  unfold spliceAllT spliceAll
  rw [parseTemplate_no_backslash hb]
  show some (spliceTGo (block.map ReplPiece.lit) s.length s)
      = some (spliceGo block s.length s)
  rw [spliceTGo_eq_spliceGo (fun m => expandPieces_lit block m)]

/-! ### Lemmas about the fetch loop -/

theorem fetch_foldl (l : List Item) :
    ∀ acc : List Post,
      l.foldl (fun posts it =>
          if eligibleItem it then posts ++ [postOfItem it] else posts) acc
        = acc ++ (l.filter eligibleItem).map postOfItem := by
  induction l with
  | nil => intro acc; simp
  | cons it l ih =>
    intro acc
    by_cases h : eligibleItem it = true
    · simp [h, ih, List.filter_cons]
    · simp [h, ih, List.filter_cons]

theorem dropWhile_head_false {p : Char → Bool} :
    ∀ {l : List Char} {x : Char} {xs : List Char},
      l.dropWhile p = x :: xs → p x = false := by
  intro l
  induction l with
  | nil => intro x xs h; simp [List.dropWhile] at h
  | cons a l ih =>
    intro x xs h
    rw [List.dropWhile_cons] at h
    by_cases hp : p a = true
    · rw [if_pos hp] at h
      exact ih h
    · rw [if_neg hp] at h
      injection h with h1 _
      subst h1
      cases hpa : p a with
      | false => rfl
      | true => exact absurd hpa hp

/-! ### The claims -/

/-- C1, as stated, is false on the code: the loop truncates to the first
`max_posts` items *before* filtering, and an item with a title but no link
is skipped although it is not "missing both title and link".  Here a feed
of two items (the first with title only, the second with both) and
`max_posts = 1` returns 0 posts while `min(N_eligible, k) = 1`. -/
theorem fetch_count_cex :
    (fetch_latest_blog_posts
        [⟨some (some (chars "T")), none, none, none⟩,
         ⟨some (some (chars "U")), some (some (chars "L")), none, none⟩] 1).length
      ≠ Nat.min
          (List.countP (fun it => claimEligible it)
            [⟨some (some (chars "T")), none, none, none⟩,
             ⟨some (some (chars "U")), some (some (chars "L")), none, none⟩])
          1 := by decide

/-- C1 (amended): `fetch_latest_blog_posts` returns exactly the eligible
items among the *first k* feed items, as posts, in original document
order, where an item is eligible iff both its title and link elements are
present. -/
theorem fetch_first_k_filter (items : List Item) (k : Nat) :
    fetch_latest_blog_posts items k
      = ((items.take k).filter eligibleItem).map postOfItem := by
  unfold fetch_latest_blog_posts
  simpa using fetch_foldl (items.take k) []

/-- C4: every post returned by `fetch_latest_blog_posts` originates from
an item (among the first `k`) whose title and link elements are both
present — an item lacking either contributes nothing to the result. -/
theorem post_admission (items : List Item) (k : Nat) (p : Post)
    (hp : p ∈ fetch_latest_blog_posts items k) :
    ∃ it, it ∈ items.take k ∧ it.title.isSome = true ∧ it.link.isSome = true
      ∧ p = postOfItem it := by
  have heq : fetch_latest_blog_posts items k
      = ((items.take k).filter eligibleItem).map postOfItem := by
    unfold fetch_latest_blog_posts
    simpa using fetch_foldl (items.take k) []
  rw [heq] at hp
  obtain ⟨it, hit, rfl⟩ := List.mem_map.mp hp
  obtain ⟨hmem, helig⟩ := List.mem_filter.mp hit
  unfold eligibleItem at helig
  rw [Bool.and_eq_true] at helig
  exact ⟨it, hmem, helig.1, helig.2, rfl⟩

theorem post_admission_witness :
    ∃ it, it ∈ ([⟨some (some (chars "T")), some (some (chars "L")), none, none⟩] :
        List Item).take 1
      ∧ it.title.isSome = true ∧ it.link.isSome = true
      ∧ postOfItem ⟨some (some (chars "T")), some (some (chars "L")), none, none⟩
          = postOfItem it :=
  post_admission [⟨some (some (chars "T")), some (some (chars "L")), none, none⟩] 1
    (postOfItem ⟨some (some (chars "T")), some (some (chars "L")), none, none⟩)
    (by decide)

/-- C5: the RFC-2822-style example is rendered as "January 02, 2006" and
the unparseable example falls back to the raw string unchanged. -/
theorem date_normalization_examples :
    normalizeDate (chars "Mon, 02 Jan 2006 15:04:05 +0000") = chars "January 02, 2006"
    ∧ normalizeDate (chars "not-a-date") = chars "not-a-date" := by
  constructor
  · decide
  · decide

set_option maxRecDepth 100000 in
/-- C2, as stated (for *every* rendered block), is false on the code: a
post whose title is the literal end marker yields a rendered block whose
interior contains an end marker, so the second substitution matches a
shorter span inside the block and changes the document again
(`changed = true`). -/
theorem splice_second_changed_cex :
    (splice (splice (startMarker ++ endMarker)
          (renderPosts [⟨chars "<!-- BLOG-POST-LIST:END -->", chars "L", [], chars "D"⟩])).1
        (renderPosts [⟨chars "<!-- BLOG-POST-LIST:END -->", chars "L", [], chars "D"⟩])).2
      = true
    ∧ (splice (splice (startMarker ++ endMarker)
          (renderPosts [⟨chars "<!-- BLOG-POST-LIST:END -->", chars "L", [], chars "D"⟩])).1
        (renderPosts [⟨chars "<!-- BLOG-POST-LIST:END -->", chars "L", [], chars "D"⟩])).1
      ≠ (splice (startMarker ++ endMarker)
          (renderPosts [⟨chars "<!-- BLOG-POST-LIST:END -->", chars "L", [], chars "D"⟩])).1 := by
  constructor
  · decide
  · decide

/-- C2 (amended): for every document and every rendered block that is
free of backslashes — so that `re.sub` substitutes it literally instead
of processing it as a replacement template — and whose interior (the
text strictly between the block's leading start marker and trailing end
marker) contains no end-marker occurrence, applying the substitution
twice yields `changed = false` the second time and the same document
text as after the first application. -/
theorem splice_idempotent (mid s : List Char)
    (hb : (startMarker ++ (mid ++ endMarker)).contains '\\' = false)
    (hmid : ∀ i < mid.length, occursAt endMarker (mid ++ endMarker) i = false) :
    (splice (splice s (startMarker ++ (mid ++ endMarker))).1
        (startMarker ++ (mid ++ endMarker))).2 = false
    ∧ (splice (splice s (startMarker ++ (mid ++ endMarker))).1
          (startMarker ++ (mid ++ endMarker))).1
        = (splice s (startMarker ++ (mid ++ endMarker))).1 := by
  have hT : ∀ u : List Char,
      spliceAllT (startMarker ++ (mid ++ endMarker)) u
        = some (spliceAll (startMarker ++ (mid ++ endMarker)) u) :=
    fun u => spliceAllT_no_backslash hb u
  have hfst : (splice s (startMarker ++ (mid ++ endMarker))).1
      = spliceAll (startMarker ++ (mid ++ endMarker)) s := by
    unfold splice
    rw [hT s]
    by_cases h : spliceAll (startMarker ++ (mid ++ endMarker)) s = s
    · simp [h]
    · simp [h]
  have hid := spliceAll_idem mid hmid s.length s (Nat.le_refl _)
  rw [hfst]
  unfold splice
  rw [hT]
  constructor
  · simp [hid]
  · simp [hid]

theorem splice_idempotent_witness :
    (splice (splice (chars "doc") (startMarker ++ (chars "\nhello\n" ++ endMarker))).1
        (startMarker ++ (chars "\nhello\n" ++ endMarker))).2 = false
    ∧ (splice (splice (chars "doc") (startMarker ++ (chars "\nhello\n" ++ endMarker))).1
          (startMarker ++ (chars "\nhello\n" ++ endMarker))).1
        = (splice (chars "doc") (startMarker ++ (chars "\nhello\n" ++ endMarker))).1 :=
  splice_idempotent (chars "\nhello\n") (chars "doc") (by decide) (by decide)

set_option maxRecDepth 100000 in
/-- C3, as stated (for *every* document containing the marker pair), is
false on the code: `re.sub` without a count replaces every non-overlapping
span, so in a document with two marker pairs the second span — which lies
entirely outside the first span — is rewritten as well. -/
theorem splice_multi_span_cex :
    spliceAllT (renderPosts []) (startMarker ++ endMarker ++ startMarker ++ endMarker)
      = some (renderPosts [] ++ renderPosts [])
    ∧ renderPosts [] ++ renderPosts []
      ≠ renderPosts [] ++ (startMarker ++ endMarker) := by
  constructor
  · decide
  · decide

/-- C3 (amended): if the start marker occurs in the document at exactly
one position and the end marker occurs at exactly one position (after
it), and the block is free of backslashes — so that `re.sub` substitutes
it literally instead of processing it as a replacement template (an
invalid template raises `re.error` and nothing is replaced) — the
substitution replaces exactly that span — start marker through end
marker inclusive — with the block, and every character outside the span
is preserved. -/
theorem marker_span_replaced (pre gap post block : List Char)
    (hb : block.contains '\\' = false)
    (hS : ∀ i < (pre ++ startMarker ++ gap ++ endMarker ++ post).length,
      occursAt startMarker (pre ++ startMarker ++ gap ++ endMarker ++ post) i = true →
        i = pre.length)
    (hE : ∀ i < (pre ++ startMarker ++ gap ++ endMarker ++ post).length,
      occursAt endMarker (pre ++ startMarker ++ gap ++ endMarker ++ post) i = true →
        i = pre.length + startMarker.length + gap.length) :
    spliceAllT block (pre ++ startMarker ++ gap ++ endMarker ++ post)
      = some (pre ++ block ++ post) := by
  have hsm : startMarker.length = 29 := by decide
  have hem : endMarker.length = 27 := by decide
  have hlen : (pre ++ startMarker ++ gap ++ endMarker ++ post).length
      = pre.length + 29 + gap.length + 27 + post.length := by
    simp [List.length_append, hsm, hem]
    omega
  have h1 : splitFirst startMarker (pre ++ startMarker ++ gap ++ endMarker ++ post)
      = some (pre, gap ++ (endMarker ++ post)) := by
    have hassoc : pre ++ startMarker ++ gap ++ endMarker ++ post
        = pre ++ (startMarker ++ (gap ++ (endMarker ++ post))) := by
      simp [List.append_assoc]
    rw [hassoc]
    refine splitFirst_start_of_min ?_
    intro i hi
    by_contra hcon
    rw [Bool.not_eq_false] at hcon
    rw [← hassoc] at hcon
    have := hS i (by omega) hcon
    omega
  have h2 : splitFirst endMarker (gap ++ (endMarker ++ post)) = some (gap, post) := by
    refine splitFirst_end_of_min ?_
    intro i hi
    by_contra hcon
    rw [Bool.not_eq_false] at hcon
    have hlift : occursAt endMarker
        ((pre ++ startMarker) ++ (gap ++ (endMarker ++ post)))
        ((pre ++ startMarker).length + i) = true := by
      rw [occursAt_append_right]
      exact hcon
    have hform : (pre ++ startMarker) ++ (gap ++ (endMarker ++ post))
        = pre ++ startMarker ++ gap ++ endMarker ++ post := by
      simp [List.append_assoc]
    rw [hform] at hlift
    have hplen : (pre ++ startMarker).length = pre.length + 29 := by
      simp [List.length_append, hsm]
    have := hE ((pre ++ startMarker).length + i) (by rw [hplen]; omega) hlift
    rw [hplen] at this
    omega
  have h3 : splitFirst startMarker post = none := by
    refine splitFirst_none_of ?_
    intro i
    by_contra hcon
    rw [Bool.not_eq_false] at hcon
    have hilt : i < post.length := occursAt_lt (by decide) hcon
    have hlift : occursAt startMarker
        ((pre ++ startMarker ++ gap ++ endMarker) ++ post)
        ((pre ++ startMarker ++ gap ++ endMarker).length + i) = true := by
      rw [occursAt_append_right]
      exact hcon
    have hxlen : (pre ++ startMarker ++ gap ++ endMarker).length
        = pre.length + 29 + gap.length + 27 := by
      simp [List.length_append, hsm, hem]
      omega
    have := hS _ (by rw [hxlen]; omega) hlift
    rw [hxlen] at this
    omega
  rw [spliceAllT_no_backslash hb, spliceAll_step h1 h2, spliceAll_none h3]

set_option maxRecDepth 100000 in
theorem marker_span_replaced_witness :
    spliceAllT (chars "XYZ")
        (chars "A" ++ startMarker ++ chars "B" ++ endMarker ++ chars "C")
      = some (chars "A" ++ chars "XYZ" ++ chars "C") :=
  marker_span_replaced (chars "A") (chars "B") (chars "C") (chars "XYZ")
    (by decide) (by decide) (by decide)

/-- C6, as stated, is false on the code: the GMT/UTC rules are not
restricted to a *trailing* token — `.replace(' GMT', '')` fires on (and
removes) an occurrence anywhere.  On `"01 GMT 02"` the stripping step
changes the string although it contains no `+` and ends in neither `GMT`
nor `UTC`, so none of the three described rules applies. -/
theorem stripPre_gmt_cex :
    stripPre (chars "01 GMT 02") = chars "01 02"
    ∧ chars "01 02" ≠ chars "01 GMT 02"
    ∧ (chars "01 GMT 02").contains '+' = false
    ∧ (chars "GMT").isSuffixOf (chars "01 GMT 02") = false
    ∧ (chars "UTC").isSuffixOf (chars "01 GMT 02") = false := by
  refine ⟨by decide, by decide, by decide, by decide, by decide⟩

/-- C6 (amended): the stripping step applies exactly one of three rules —
if the string contains a `+`, everything from the first `+` on is removed
(and the remainder trimmed); otherwise, if it contains the substring
`" GMT"` anywhere, every `" GMT"` occurrence is removed (then trimmed);
otherwise likewise for `" UTC"`; otherwise the string is unchanged.  The
rules are mutually exclusive by the if/elif chain. -/
theorem stripPre_cases (ds : List Char) :
    (ds.contains '+' = true
      ∧ ∃ a b, ds = a ++ '+' :: b ∧ a.contains '+' = false
        ∧ stripPre ds = pyStrip a)
    ∨ (ds.contains '+' = false ∧ containsSub (chars " GMT") ds = true
        ∧ stripPre ds = pyStrip (removeAll (chars " GMT") ds))
    ∨ (ds.contains '+' = false ∧ containsSub (chars " GMT") ds = false
        ∧ containsSub (chars " UTC") ds = true
        ∧ stripPre ds = pyStrip (removeAll (chars " UTC") ds))
    ∨ (ds.contains '+' = false ∧ containsSub (chars " GMT") ds = false
        ∧ containsSub (chars " UTC") ds = false ∧ stripPre ds = ds) := by
  by_cases hplus : ds.contains '+' = true
  · left
    refine ⟨hplus, ds.takeWhile (fun c => !(c = '+')), ?_⟩
    have hmem : '+' ∈ ds := by simpa using hplus
    have hsplit := List.takeWhile_append_dropWhile (fun c => !(c = '+')) ds
    cases hdw : ds.dropWhile (fun c => !(c = '+')) with
    | nil =>
      exfalso
      rw [hdw, List.append_nil] at hsplit
      have hin : '+' ∈ ds.takeWhile (fun c => !(c = '+')) := by
        rw [hsplit]
        exact hmem
      have hszn := List.mem_takeWhile_imp hin
      simp at hszn
    | cons x b =>
      have hx : (fun c => !(c = '+')) x = false := dropWhile_head_false hdw
      have hx' : x = '+' := by simpa using hx
      subst hx'
      refine ⟨b, ?_, ?_, ?_⟩
      · conv_lhs => rw [← hsplit]
        rw [hdw]
      · have hnot : '+' ∉ ds.takeWhile (fun c => !(c = '+')) := by
          intro hin
          have := List.mem_takeWhile_imp hin
          simp at this
        simpa using hnot
      · unfold stripPre
        rw [if_pos hplus]
  · have hplusF : ds.contains '+' = false := by
      rw [Bool.not_eq_true] at hplus
      exact hplus
    right
    by_cases hg : containsSub (chars " GMT") ds = true
    · left
      refine ⟨hplusF, hg, ?_⟩
      unfold stripPre
      rw [if_neg hplus, if_pos hg]
    · have hgF : containsSub (chars " GMT") ds = false := by
        rw [Bool.not_eq_true] at hg
        exact hg
      right
      by_cases hu : containsSub (chars " UTC") ds = true
      · left
        refine ⟨hplusF, hgF, hu, ?_⟩
        unfold stripPre
        rw [if_neg hplus, if_neg hg, if_pos hu]
      · have huF : containsSub (chars " UTC") ds = false := by
          rw [Bool.not_eq_true] at hu
          exact hu
        right
        refine ⟨hplusF, hgF, huF, ?_⟩
        unfold stripPre
        rw [if_neg hplus, if_neg hg, if_neg hu]

/-- C7: summaries longer than 150 characters after the cleanup are
truncated to exactly the first 150 characters plus the 3-character
ellipsis marker; summaries of at most 150 characters pass through the
truncation step unchanged. -/
theorem summary_truncation (t : List Char) :
    ((cleanupSummary t).length ≤ 150 → cleanSummary t = cleanupSummary t)
    ∧ (150 < (cleanupSummary t).length →
        (cleanSummary t).length = 153
        ∧ (cleanSummary t).take 150 = (cleanupSummary t).take 150
        ∧ (cleanSummary t).drop 150 = chars "...") := by
  have hc : cleanSummary t
      = (if 150 < (cleanupSummary t).length
          then (cleanupSummary t).take 150 ++ chars "..." else cleanupSummary t) := rfl
  constructor
  · intro h
    rw [hc, if_neg (by omega)]
  · intro h
    rw [hc, if_pos h]
    have htl : ((cleanupSummary t).take 150).length = 150 := by
      rw [List.length_take]
      omega
    refine ⟨?_, ?_, ?_⟩
    · rw [List.length_append, htl]
      decide
    · rw [List.take_append_eq_append_take, htl, Nat.sub_self, List.take_zero,
        List.append_nil]
      exact List.take_of_length_le (by omega)
    · rw [List.drop_append_eq_append_drop, htl, Nat.sub_self, List.drop_zero,
        List.drop_eq_nil_of_le (by omega), List.nil_append]

set_option maxRecDepth 10000 in
theorem summary_truncation_witness :
    cleanSummary (chars "hi") = cleanupSummary (chars "hi")
    ∧ (cleanSummary (List.replicate 160 'a')).length = 153 :=
  ⟨(summary_truncation (chars "hi")).1 (by decide),
   ((summary_truncation (List.replicate 160 'a')).2 (by decide)).1⟩

/-- C8, as stated, is false on the code: the line rendered for an empty
feed is `- No blog posts available at the moment.` (a bulleted list item),
not the bare literal `No blog posts available at the moment.`; the bare
line does not occur in the rendered block at all. -/
theorem render_empty_cex :
    renderPosts [] ≠ specEmptyBlock
    ∧ containsSub (chars "\nNo blog posts available at the moment.\n")
        (renderPosts []) = false
    ∧ containsSub (chars "\n- No blog posts available at the moment.\n")
        (renderPosts []) = true := by
  refine ⟨by decide, by decide, by decide⟩

/-- C8 (amended): rendering an empty sequence of posts produces exactly
the start marker, the literal line `- No blog posts available at the
moment.`, and the end marker. -/
theorem render_empty_block :
    renderPosts ([] : List Post)
      = startMarker ++ chars "\n" ++ chars "- No blog posts available at the moment."
          ++ chars "\n" ++ endMarker := by
  decide

/-- C9: when the HTTP request raises or the body fails XML parsing, the
raised error is caught at the function boundary and the function returns
the empty list; `fetchCaught` is total, so no failure propagates to the
caller. -/
theorem fetch_failure_empty (k : Nat) :
    fetchCaught .requestError k = []
    ∧ fetchCaught .xmlParseError k = []
    ∧ fetchBody .requestError k = .error .request
    ∧ fetchBody .xmlParseError k = .error .parse :=
  ⟨rfl, rfl, rfl, rfl⟩

/-- C10: an admitted item whose title element is present but whose text
is `None` or empty yields the placeholder title `No Title`, and an
admitted item whose link element has empty text yields an empty link. -/
theorem empty_title_placeholder (tl ltxt : Option (List Char))
    (pd dsc : Option (Option (List Char))) (k : Nat)
    (ht : tl = none ∨ tl = some []) (hk : 0 < k) :
    fetch_latest_blog_posts [⟨some tl, some ltxt, pd, dsc⟩] k
      = [⟨noTitle, linkField ltxt, summaryField dsc, publishedField pd⟩]
    ∧ linkField (some []) = [] := by
  constructor
  · have htake : ([⟨some tl, some ltxt, pd, dsc⟩] : List Item).take k
        = [⟨some tl, some ltxt, pd, dsc⟩] := by
      cases k with
      | zero => omega
      | succ k' => simp
    have htf : titleField tl = noTitle := by
      rcases ht with rfl | rfl
      · rfl
      · rfl
    unfold fetch_latest_blog_posts
    rw [htake]
    simp [eligibleItem, postOfItem, htf]
  · rfl

theorem empty_title_placeholder_witness :
    fetch_latest_blog_posts [⟨some none, some (some []), none, none⟩] 5
      = [⟨noTitle, linkField (some []), summaryField none, publishedField none⟩]
    ∧ linkField (some []) = [] :=
  empty_title_placeholder none (some []) none none 5 (Or.inl rfl) (by decide)

end Blog


